import Mathlib

/-!
Verification of the shipping discount engine (aleksandrasd/homework_01).

This file shallowly embeds the discount-rule execution engine and the
transaction-processing orchestration of the repository:

* `core/helper/__init__.py` — `get_calendar_month_range_dates`,
  `attributes_equal`, `filter_objects` (specialised to the fields used);
* `core/helper/pydantic.py` — `make_decimal_places_formatter`;
* `app/shipping/adapter/output/persistence/memory/transaction.py` —
  the in-memory `TransactionRepo` (`get_discount_sum`,
  `get_transaction_count`);
* `app/shipping/domain/service/discount.py` — `get_largest_discount`;
* `app/shipping/domain/service/rule.py` — `DiscountRuleExecutor`;
* `app/shipping/domain/service/subrule/*.py` — the reference rule variants;
* `app/shipping/application/service/transaction.py` — `_get_rules`,
  `_calculate_discount`, `_get_response` and the lock/unit-of-work
  critical section of `process_transaction`.

Decimal amounts are modelled as rationals (`ℚ`); Python `Decimal`
digit-level behaviour, where it matters (the places formatter), is
modelled on the coefficient/exponent representation.  Exceptions are
modelled with `Except`; coroutine fan-out is modelled by its
deterministic observable result (which rules were invoked and what was
returned), since eligibility rules are side-effect-free reads.
-/

namespace Shipping

/-! ## Dates (`datetime.date`, `calendar.monthrange`) -/

/-- A calendar date, mirroring python `datetime.date`. -/
structure PDate where
  year : Int
  month : Nat
  day : Nat
deriving DecidableEq, Repr

/-- Date comparison `a <= b`, lexicographic on (year, month, day),
mirroring `datetime.date` ordering. -/
def dateLE (a b : PDate) : Bool :=
  if a.year ≠ b.year then a.year < b.year
  else if a.month ≠ b.month then a.month < b.month
  else a.day ≤ b.day

/-- Gregorian leap-year rule used by python `calendar.isleap`. -/
def is_leap (y : Int) : Bool :=
  y % 4 == 0 && (y % 100 != 0 || y % 400 == 0)

/-- Number of days in a month, as returned by `calendar.monthrange`. -/
def days_in_month (y : Int) (m : Nat) : Nat :=
  if m = 2 then (if is_leap y then 29 else 28)
  else if m = 4 ∨ m = 6 ∨ m = 9 ∨ m = 11 then 30
  else 31

/-- `core.helper.get_calendar_month_range_dates`: the first and last
date of the month of the given date. -/
def get_calendar_month_range_dates (d : PDate) : PDate × PDate :=
  (⟨d.year, d.month, 1⟩, ⟨d.year, d.month, days_in_month d.year d.month⟩)

/-! ## Transactions and the attribute filters used on them -/

/-- `UnprocessedTransaction`: (date, package size, carrier). -/
structure UTrans where
  date : PDate
  package_size : String
  carrier : String
deriving DecidableEq, Repr

/-- `ProcessedTransaction`: an unprocessed transaction plus the optional
winning discount id and amount. -/
structure PTrans where
  date : PDate
  package_size : String
  carrier : String
  discount_id : Option Int
  discount : Option ℚ
deriving DecidableEq

/-- An attribute dictionary over the fields of `UnprocessedTransaction`,
as passed to `attributes_equal` / `filter_objects` (`transaction_attr`).
A `none` field means the key is absent from the dictionary. -/
structure TransAttrFilter where
  date : Option PDate
  package_size : Option String
  carrier : Option String
deriving DecidableEq

/-- The empty dictionary (falsy in python truthiness tests). -/
def TransAttrFilter.isEmpty (f : TransAttrFilter) : Bool :=
  f.date = none && f.package_size = none && f.carrier = none

/-- `core.helper.attributes_equal` on an `UnprocessedTransaction`: every
present key's value equals the transaction's attribute. -/
def attributes_equal_utrans (t : UTrans) (f : TransAttrFilter) : Bool :=
  f.date.all (· = t.date) && f.package_size.all (· = t.package_size)
    && f.carrier.all (· = t.carrier)

/-- `core.helper.filter_objects` matching on a persisted transaction,
restricted to the shared transaction attributes. -/
def attributes_equal_ptrans (t : PTrans) (f : TransAttrFilter) : Bool :=
  f.date.all (· = t.date) && f.package_size.all (· = t.package_size)
    && f.carrier.all (· = t.carrier)

/-! ## In-memory transaction repository
(`adapter/output/persistence/memory/transaction.py`).  The repository
state is the list of persisted transactions, in insertion order. -/

/-- `TransactionMemoryRepo._filter_transactions_by_date`: keep the
transactions with `start <= date` (when `start` is given) and
`date <= end` (when `end` is given). -/
def filter_transactions_by_date (ts : List PTrans)
    (start stop : Option PDate) : List PTrans :=
  let ts1 := match start with
    | none => ts
    | some s => ts.filter (fun t => dateLE s t.date)
  match stop with
  | none => ts1
  | some e => ts1.filter (fun t => dateLE t.date e)

/-- Python truthiness of the optional `transaction_attr` dictionary:
`None` and the empty dict are falsy. -/
def attrTruthy (a : Option TransAttrFilter) : Bool :=
  match a with
  | none => false
  | some f => !f.isEmpty

/-- `TransactionMemoryRepo.get_discount_sum`: sum of the non-`None`
discounts of the transactions that pass the (truthy) attribute filter
and the date-range filter; `0` when nothing matches. -/
def get_discount_sum (ts : List PTrans) (start stop : Option PDate)
    (transaction_attr : Option TransAttrFilter) : ℚ :=
  let ts1 := match transaction_attr with
    | none => ts
    | some f => if f.isEmpty then ts
        else ts.filter (fun t => attributes_equal_ptrans t f)
  ((filter_transactions_by_date ts1 start stop).filterMap
    (fun t => t.discount)).sum

/-- `TransactionMemoryRepo.get_transaction_count`: number of
transactions that pass the (truthy) attribute filter and the date-range
filter. -/
def get_transaction_count (ts : List PTrans) (start stop : Option PDate)
    (transaction_attr : Option TransAttrFilter) : Nat :=
  let ts1 := match transaction_attr with
    | none => ts
    | some f => if f.isEmpty then ts
        else ts.filter (fun t => attributes_equal_ptrans t f)
  (filter_transactions_by_date ts1 start stop).length

/-! ## Python `Decimal` and the decimal-places formatter
(`core/helper/pydantic.py`).  A finite decimal is represented by its
sign, coefficient and the number of fractional places (`places` is the
negated exponent of `Decimal.as_tuple()`; all values handled by the
repository — JSON prices and discounts — have non-positive exponent). -/

/-- A finite python `Decimal` with exponent `-places`.
`sign = true` means negative.  Its numeric value is
`(-1)^sign * coeff / 10^places`. -/
structure PyDecimal where
  sign : Bool
  coeff : Nat
  places : Nat
deriving DecidableEq, Repr

/-- Numeric value of a `PyDecimal` as a rational. -/
def PyDecimal.val (v : PyDecimal) : ℚ :=
  (if v.sign then -1 else 1) * (v.coeff : ℚ) / (10 : ℚ) ^ v.places

/-- Base-10 digits of `n`, least-significant first, computed with a
fuel bound (any `fuel ≥` the digit count of `n` gives all digits). -/
def digits_rev_fuel : Nat → Nat → List Nat
  | 0, _ => []
  | fuel + 1, n => if n = 0 then [] else n % 10 :: digits_rev_fuel fuel (n / 10)

/-- The digit tuple of `Decimal.as_tuple().digits`: most-significant
first, without leading zeros, and `(0,)` for a zero coefficient. -/
def pyDigits (n : Nat) : List Nat :=
  if n = 0 then [0] else (digits_rev_fuel n n).reverse

/-- Python slice `digits[-k:]`: the last `k` elements, the whole list
when `k = 0` (since `digits[-0:]` is `digits[0:]`) or when `k` exceeds
the length. -/
def lastSlice (k : Nat) (l : List Nat) : List Nat :=
  if k = 0 then l else l.drop (l.length - k)

/-- `Decimal.quantize(Decimal("1.00"), rounding=ROUND_DOWN)` generalised
to `dec_places` fractional places: truncate the coefficient towards zero
(drop surplus trailing digits) or pad it with zeros. -/
def quantize_down (dec_places : Nat) (v : PyDecimal) : PyDecimal :=
  if dec_places ≤ v.places then
    ⟨v.sign, v.coeff / 10 ^ (v.places - dec_places), dec_places⟩
  else ⟨v.sign, v.coeff * 10 ^ (dec_places - v.places), dec_places⟩

/-- The inner function of
`core.helper.pydantic.make_decimal_places_formatter(dec_places)` on a
non-`None` finite value: when the value has more than `dec_places`
fractional places it checks that the slice `digits[-dec_places:]` of the
coefficient digit tuple is all zeros (raising `ValueError` otherwise),
then quantizes to `dec_places` places with `ROUND_DOWN`. -/
def decimal_places_formatter (dec_places : Nat) (v : PyDecimal) :
    Except String PyDecimal :=
  let got_dec_places := v.places
  if dec_places < got_dec_places then
    let redundant_dec_place := lastSlice dec_places (pyDigits v.coeff)
    if redundant_dec_place.all (· = 0) then
      Except.ok (quantize_down dec_places v)
    else Except.error "Value must have exactly dec_places decimal places"
  else Except.ok (quantize_down dec_places v)

/-- `ShippingPlan` price validation: pydantic first enforces
`Field(ge=0)`, then runs `format_currency_decimal_places`
(`CURRENCY_DECIMAL_PLACES = 2`) as an after-validator. -/
def shipping_plan_validate_price (v : PyDecimal) : Except String PyDecimal :=
  if v.sign && v.coeff ≠ 0 then Except.error "Input should be greater than or equal to 0"
  else decimal_places_formatter 2 v

/-- The acceptance condition stated by the spec (and by the formatter's
own docstring): every digit beyond the `dec_places`-th fractional place
is zero.  For a coefficient `c` with `p > dec_places` places those are
the last `p - dec_places` digits, i.e. the condition is
`c % 10 ^ (p - dec_places) = 0`. -/
def spec_trailing_zeros_only (dec_places : Nat) (v : PyDecimal) : Prop :=
  v.places ≤ dec_places ∨ v.coeff % 10 ^ (v.places - dec_places) = 0

instance (dec_places : Nat) (v : PyDecimal) :
    Decidable (spec_trailing_zeros_only dec_places v) := by
  unfold spec_trailing_zeros_only; infer_instance

/-! ## Reference rule variants (`domain/service/subrule`) -/

/-- `BasicMonthlyDiscountSizeLimiter` (correction rule): configured with
the monthly cap `size` (pydantic `Field(gt=0)`). -/
structure BasicMonthlyDiscountSizeLimiter where
  size : ℚ
deriving DecidableEq

/-- `BasicMonthlyDiscountSizeLimiter.correct`: let `accumulated` be the
discount sum over the calendar month of the transaction's date; return
the discount unchanged if `discount + accumulated <= size`, otherwise
`max(size - accumulated, 0)`. -/
def BasicMonthlyDiscountSizeLimiter.correct
    (r : BasicMonthlyDiscountSizeLimiter) (discount : ℚ) (t : UTrans)
    (transactions : List PTrans) : ℚ :=
  let range := get_calendar_month_range_dates t.date
  let accumulated :=
    get_discount_sum transactions (some range.1) (some range.2) none
  if discount + accumulated ≤ r.size then discount
  else max (r.size - accumulated) 0

/-- `RuleEveryNthTransaction` (eligibility rule): configured with the
interval `nth` (pydantic `Field(ge=1)`) and a transaction-attribute
dictionary (`None` is normalised to the empty dict in `__init__`). -/
structure RuleEveryNthTransaction where
  nth : Nat
  transaction_attr : TransAttrFilter
deriving DecidableEq

/-- `RuleEveryNthTransaction.eligible`: ineligible when the (truthy)
attribute dict does not match the current transaction; otherwise
eligible iff `(count + 1) % nth == 0`, where `count` is the number of
persisted transactions matching the attribute dict (no date bound). -/
def RuleEveryNthTransaction.eligible (r : RuleEveryNthTransaction)
    (t : UTrans) (transactions : List PTrans) : Bool :=
  if !r.transaction_attr.isEmpty && !attributes_equal_utrans t r.transaction_attr
  then false
  else
    let seq_num :=
      get_transaction_count transactions none none (some r.transaction_attr)
    (seq_num + 1) % r.nth == 0

/-! ## The discount rule executor (`domain/service/rule.py`)

Subrules are duck-typed python objects.  An object is modelled by a
capability flag (does it have the required callable method, as probed by
`core.helper.has_method` / `has_method_arg`) together with the method's
behaviour as a function of the evaluation context.  The context type
`Ctx` stands for the `rule_params` bundle (transaction, price, shipping
plans, transaction repository); `call_with_expected_args` hands each
method exactly the fields it declares, so each method is simply a
function of the context (plus, for correction rules, the discount). -/

/-- A duck-typed eligibility subrule object: `has_eligible` records
whether it has a callable `eligible` method. -/
structure EligObj (Ctx : Type) where
  has_eligible : Bool
  eligible : Ctx → Bool

/-- A duck-typed size subrule object. -/
structure SizeObj (Ctx : Type) where
  has_calculate_discount : Bool
  calculate_discount : Ctx → ℚ

/-- A duck-typed correction subrule object.  `correct` may return
`None` (the executor guards for it). -/
structure CorrObj (Ctx : Type) where
  has_correct : Bool
  correct_has_discount_arg : Bool
  correct : Ctx → ℚ → Option ℚ

/-- The state of a constructed `DiscountRuleExecutor`. -/
structure DiscountRuleExecutor (Ctx : Type) where
  discount_id : Int
  size_rule : SizeObj Ctx
  eligibility_rules : Option (List (EligObj Ctx))
  size_correction_rule : Option (CorrObj Ctx)

/-- The capability check performed on `eligibility_rules` in
`DiscountRuleExecutor.__init__`: the loop runs only when the argument is
truthy (`None` and the empty list are skipped), and fails when some rule
lacks a callable `eligible`. -/
def elig_check_fails {Ctx : Type} (e : Option (List (EligObj Ctx))) : Bool :=
  match e with
  | none => false
  | some rs => !rs.isEmpty && rs.any (fun r => !r.has_eligible)

/-- `DiscountRuleExecutor.__init__`: validates the duck-typed
capabilities in source order (eligibility rules, then the size rule,
then the correction rule and its `discount` argument), raising
`ValueError` on the first failure, and otherwise stores the subrules
unchanged. -/
def DiscountRuleExecutor.init {Ctx : Type} (discount_id : Int)
    (size_rule : SizeObj Ctx) (eligibility_rules : Option (List (EligObj Ctx)))
    (size_correction_rule : Option (CorrObj Ctx)) :
    Except String (DiscountRuleExecutor Ctx) :=
  if elig_check_fails eligibility_rules then
    Except.error "Eligibility class must have a callable method eligible."
  else if !size_rule.has_calculate_discount then
    Except.error "Size rule class must have a callable method calculate_discount."
  else match size_correction_rule with
    | none =>
      Except.ok ⟨discount_id, size_rule, eligibility_rules, size_correction_rule⟩
    | some c =>
      if !c.has_correct then
        Except.error "Size correction class must have a callable method correct."
      else if !c.correct_has_discount_arg then
        Except.error "Size correction class method correct must have argument discount."
      else
        Except.ok ⟨discount_id, size_rule, eligibility_rules, size_correction_rule⟩

/-- Observable result of `DiscountRuleExecutor._is_eligible`: `True`
when no eligibility rules are bound (`None`), otherwise the conjunction
of the rules' verdicts.  (The python implementation fans the rules out
as concurrent tasks and cancels the rest at the first `False`; the
rules are side-effect-free reads, so the returned value is exactly this
conjunction, and over an empty list the `as_completed` loop is empty
and `True` is returned.) -/
def is_eligible {Ctx : Type} (eligibility_rules : Option (List (EligObj Ctx)))
    (ctx : Ctx) : Bool :=
  match eligibility_rules with
  | none => true
  | some rs => rs.all (fun r => r.eligible ctx)

/-- Result of one `execute_rule` call, instrumented with which subrules
were invoked. -/
structure ExecOutcome where
  result : Option ℚ
  size_invoked : Bool
  correction_invoked : Bool
deriving DecidableEq, Repr

/-- `DiscountRuleExecutor.execute_rule`: return `None` without invoking
the size rule when ineligible; invoke the size rule; a negative size is
logged and yields `None`; with no correction rule bound, a zero size
yields `None` and a positive size is returned; with a correction rule
bound it is invoked with the raw size, a negative or `None` or zero
corrected value yields `None`, and otherwise the corrected value is
returned. -/
def DiscountRuleExecutor.execute_rule {Ctx : Type}
    (e : DiscountRuleExecutor Ctx) (ctx : Ctx) : ExecOutcome :=
  if !is_eligible e.eligibility_rules ctx then ⟨none, false, false⟩
  else
    let size := e.size_rule.calculate_discount ctx
    if size < 0 then ⟨none, true, false⟩
    else match e.size_correction_rule with
      | none => ⟨if size = 0 then none else some size, true, false⟩
      | some c =>
        match c.correct ctx size with
        | none => ⟨none, true, true⟩
        | some corrected =>
          if corrected < 0 then ⟨none, true, true⟩
          else ⟨if corrected = 0 then none else some corrected, true, true⟩

/-! ## Largest-discount selection (`domain/service/discount.py`)

`get_largest_discount(discounts, extract_size)` is
`sorted(discounts, key=extract_size, reverse=True)[0]`.  Python's
`sorted` is guaranteed stable, and `reverse=True` preserves stability
(elements with equal keys keep their original relative order).  The
unique stable descending sort by key is realised here by insertion:
each element is inserted before the first already-placed element whose
key is `≤` its own (strictly later elements with an equal key stay
behind it). -/

/-- Insert `a` into a stably-descending-sorted list: `a` goes before the
first element whose key is not greater than `f a`. -/
def insertDesc {α : Type} (f : α → ℚ) (a : α) : List α → List α
  | [] => [a]
  | b :: bs => if f b ≤ f a then a :: b :: bs else b :: insertDesc f a bs

/-- Stable descending sort by key, the behaviour of
`sorted(l, key=f, reverse=True)`. -/
def sortDesc {α : Type} (f : α → ℚ) : List α → List α
  | [] => []
  | a :: l => insertDesc f a (sortDesc f l)

/-- `get_largest_discount`: head of the stable descending sort (python
indexes `[0]`, raising on an empty list; the only caller guards
non-emptiness, so the empty case is `none`). -/
def get_largest_discount {α : Type} (l : List α) (f : α → ℚ) : Option α :=
  (sortDesc f l).head?

/-- `_ApplicableDiscount`: the id and amount of one applicable
discount. -/
structure ApplicableDiscount where
  discount_id : Int
  discount : ℚ
deriving DecidableEq, Repr

/-- The `applicable_discounts` list built by
`TransactionProcessor._calculate_discount`: one entry per executor that
returned a non-`None` discount, in executor (task-creation) order. -/
def applicable_discounts {Ctx : Type}
    (rules : List (DiscountRuleExecutor Ctx)) (ctx : Ctx) :
    List ApplicableDiscount :=
  rules.filterMap (fun r =>
    (r.execute_rule ctx).result.map (fun d => ⟨r.discount_id, d⟩))

/-- `TransactionProcessor._calculate_discount`: evaluate every executor
(structured concurrency; results are read back in task-creation order),
collect the applicable discounts, and return the largest one, or `None`
when there is none. -/
def calculate_discount {Ctx : Type}
    (rules : List (DiscountRuleExecutor Ctx)) (ctx : Ctx) :
    Option ApplicableDiscount :=
  let applicable := applicable_discounts rules ctx
  if applicable.length = 0 then none
  else get_largest_discount applicable (fun x => x.discount)

/-! ## Rule-set build (`TransactionProcessor._get_rules`)

The loop body instantiates each definition's subrule specs through the
per-kind registries.  What matters for the binding claims is which
specs each built executor ends up bound to, so executors are modelled
at the spec level. -/

/-- A subrule spec: registry name plus constructor parameters (opaque
key-value strings). -/
structure Subrule where
  name : String
  params : List (String × String)
deriving DecidableEq, Repr

/-- `DiscountRule` (a `DiscountRuleDefinition` from configuration). -/
structure DiscountRule where
  discount_id : Int
  size_rule : Subrule
  eligibility_rules : Option (List Subrule)
  size_correction_rule : Option Subrule
deriving DecidableEq, Repr

/-- The executor produced for one definition, identified by the subrule
specs bound into it. -/
structure BuiltExecutor where
  discount_id : Int
  size_rule : Subrule
  eligibility_rules : Option (List Subrule)
  size_correction_rule : Option Subrule
deriving DecidableEq, Repr

/-- The loop of `_get_rules`: `init_eligibility_rules` and
`init_correction_rule` are initialised to `None` once before the loop
and reassigned only when the current definition declares the
corresponding specs, then passed to `DiscountRuleExecutor`. -/
def get_rules_loop (init_eligibility_rules : Option (List Subrule))
    (init_correction_rule : Option Subrule) :
    List DiscountRule → List BuiltExecutor
  | [] => []
  | dr :: rest =>
    let elig := match dr.eligibility_rules with
      | some es => some es
      | none => init_eligibility_rules
    let corr := match dr.size_correction_rule with
      | some c => some c
      | none => init_correction_rule
    ⟨dr.discount_id, dr.size_rule, elig, corr⟩ :: get_rules_loop elig corr rest

/-- `TransactionProcessor._get_rules`: build one executor per active
discount-rule definition. -/
def get_rules (discount_rules : List DiscountRule) : List BuiltExecutor :=
  get_rules_loop none none discount_rules

/-! ## The locked critical section of
`TransactionProcessor.process_transaction` (lines 266-308)

Exceptions are modelled by `Exc` (`LockNotOwnedException` versus any
other exception, distinguished because the handlers catch exactly
`LockNotOwnedException`).  The outcomes of the collaborator calls made
inside the critical section are inputs of the model; the model records
the trace of calls made and the final outcome. -/

/-- An exception: `LockNotOwnedException` or any other exception
(tagged to tell instances apart). -/
inductive Exc where
  | lockNotOwned
  | otherExc (tag : Nat)
deriving DecidableEq, Repr

/-- An observable call made during the critical section. -/
inductive Ev where
  | lockAcquire
  | uowBegin
  | uowCommit
  | uowAbort
  | repoSave
  | lockReacquire
  | lockRelease
  | warnRaceLogged
deriving DecidableEq, Repr

/-- Outcomes of the collaborator calls that the critical section makes:
the concurrent discount evaluation (whose group failure propagates),
`transaction_repo.save`, `lock.reacquire` and `lock.release`. -/
structure CollabOutcomes where
  calc_discount : Except Exc (Option ApplicableDiscount)
  save : Except Exc Unit
  reacquire : Except Exc Unit
  release : Except Exc Unit

/-- `TransactionProcessor._get_response`. -/
structure TransactionResponse where
  reduced_price : ℚ
  applied_discount : Option ℚ
deriving DecidableEq, Repr

/-- `_get_response(price, discount)`: `price - discount` when a discount
was applied, the plain price otherwise. -/
def get_response (price : ℚ) (discount : Option ℚ) : TransactionResponse :=
  match discount with
  | some d => ⟨price - d, some d⟩
  | none => ⟨price, none⟩

/-- The body of the `async with self._uow` block: calculate the
discount, build and save the processed transaction, renew the lock
lease.  The first failing call aborts the rest. -/
def uow_body (b : CollabOutcomes) :
    List Ev × Except Exc (Option ApplicableDiscount) :=
  match b.calc_discount with
  | Except.error e => ([], Except.error e)
  | Except.ok d =>
    match b.save with
    | Except.error e => ([Ev.repoSave], Except.error e)
    | Except.ok _ =>
      match b.reacquire with
      | Except.error e => ([Ev.repoSave, Ev.lockReacquire], Except.error e)
      | Except.ok _ => ([Ev.repoSave, Ev.lockReacquire], Except.ok d)

/-- The `async with self._uow` block: `UnitOfWorkMixin.__aenter__` calls
`begin`; `__aexit__` calls `abort` when the block raised and `commit`
otherwise, and the exception (if any) keeps propagating. -/
def with_uow (b : CollabOutcomes) :
    List Ev × Except Exc (Option ApplicableDiscount) :=
  let body := uow_body b
  match body.2 with
  | Except.error e => (Ev.uowBegin :: body.1 ++ [Ev.uowAbort], Except.error e)
  | Except.ok d => (Ev.uowBegin :: body.1 ++ [Ev.uowCommit], Except.ok d)

/-- The critical section of `process_transaction`: acquire the lock,
run the unit-of-work block inside `try`; on an exception, release the
lock swallowing only `LockNotOwnedException` and re-raise the original
exception (an unexpected release failure propagates instead); on
success, release the lock, swallowing `LockNotOwnedException` with a
race-condition warning, and return the response. -/
def process_transaction_locked (price : ℚ) (b : CollabOutcomes) :
    List Ev × Except Exc TransactionResponse :=
  let uow := with_uow b
  let pre := Ev.lockAcquire :: uow.1
  match uow.2 with
  | Except.error e =>
    match b.release with
    | Except.ok _ => (pre ++ [Ev.lockRelease], Except.error e)
    | Except.error Exc.lockNotOwned => (pre ++ [Ev.lockRelease], Except.error e)
    | Except.error e2 => (pre ++ [Ev.lockRelease], Except.error e2)
  | Except.ok d =>
    match b.release with
    | Except.ok _ =>
      (pre ++ [Ev.lockRelease],
        Except.ok (get_response price (d.map (fun x => x.discount))))
    | Except.error Exc.lockNotOwned =>
      (pre ++ [Ev.lockRelease, Ev.warnRaceLogged],
        Except.ok (get_response price (d.map (fun x => x.discount))))
    | Except.error e2 => (pre ++ [Ev.lockRelease], Except.error e2)

/-! ## Supporting lemmas: the stable descending sort -/

/-- `insertDesc` produces a permutation of consing the element. -/
theorem insertDesc_perm {α : Type} (f : α → ℚ) (a : α) :
    ∀ l : List α, (insertDesc f a l).Perm (a :: l) := by
  intro l
  induction l with
  | nil => simp [insertDesc]
  | cons b bs ih =>
    by_cases h : f b ≤ f a
    · simp [insertDesc, h]
    · simp only [insertDesc, if_neg h]
      exact (ih.cons b).trans (List.Perm.swap a b bs)

/-- `sortDesc` permutes its input. -/
theorem sortDesc_perm {α : Type} (f : α → ℚ) :
    ∀ l : List α, (sortDesc f l).Perm l := by
  intro l
  induction l with
  | nil => simp [sortDesc]
  | cons a l ih => exact (insertDesc_perm f a (sortDesc f l)).trans (ih.cons a)

/-- `insertDesc` keeps the list sorted by descending key. -/
theorem insertDesc_chain {α : Type} (f : α → ℚ) (a : α) :
    ∀ l : List α, l.Chain' (fun x y => f y ≤ f x) →
      (insertDesc f a l).Chain' (fun x y => f y ≤ f x) := by
  intro l
  induction l with
  | nil => intro _; simp [insertDesc]
  | cons b bs ih =>
    intro hc
    rw [List.chain'_cons'] at hc
    by_cases h : f b ≤ f a
    · simp only [insertDesc, if_pos h, List.chain'_cons]
      exact ⟨h, List.chain'_cons'.mpr hc⟩
    · simp only [insertDesc, if_neg h]
      rw [List.chain'_cons']
      refine ⟨?_, ih hc.2⟩
      intro y hy
      cases bs with
      | nil =>
        simp [insertDesc] at hy
        exact hy ▸ le_of_not_le h
      | cons c cs =>
        by_cases hca : f c ≤ f a
        · simp [insertDesc, if_pos hca] at hy
          exact hy ▸ le_of_not_le h
        · simp [insertDesc, if_neg hca] at hy
          exact hy ▸ hc.1 c rfl

/-- `sortDesc` output is sorted by descending key. -/
theorem sortDesc_chain {α : Type} (f : α → ℚ) :
    ∀ l : List α, (sortDesc f l).Chain' (fun x y => f y ≤ f x) := by
  intro l
  induction l with
  | nil => simp [sortDesc]
  | cons a l ih => exact insertDesc_chain f a (sortDesc f l) ih

/-- First element of the list attaining the maximum key. -/
def firstMax {α : Type} (f : α → ℚ) : List α → Option α
  | [] => none
  | a :: l =>
    match firstMax f l with
    | none => some a
    | some m => if f m ≤ f a then some a else some m

/-- The head of `insertDesc` is the inserted element or the previous
head, whichever wins (ties to the inserted element). -/
theorem head?_insertDesc {α : Type} (f : α → ℚ) (a : α) (l : List α) :
    (insertDesc f a l).head?
      = some (match l.head? with
          | none => a
          | some b => if f b ≤ f a then a else b) := by
  cases l with
  | nil => simp [insertDesc]
  | cons b bs =>
    by_cases h : f b ≤ f a
    · simp [insertDesc, h]
    · simp [insertDesc, h]

/-- The head of the stable descending sort is the first maximum. -/
theorem head?_sortDesc {α : Type} (f : α → ℚ) :
    ∀ l : List α, (sortDesc f l).head? = firstMax f l := by
  intro l
  induction l with
  | nil => rfl
  | cons a l ih =>
    rw [sortDesc, head?_insertDesc, ih, firstMax]
    cases firstMax f l with
    | none => rfl
    | some m => by_cases h : f m ≤ f a <;> simp [h]

/-- `firstMax` returns the element at the first index attaining the
maximum key: every key is `≤` its key and every earlier key is
strictly smaller. -/
theorem firstMax_spec {α : Type} (f : α → ℚ) :
    ∀ l : List α, l ≠ [] →
      ∃ (i : Nat) (hi : i < l.length),
        firstMax f l = some (l.get ⟨i, hi⟩) ∧
        (∀ (j : Nat) (hj : j < l.length),
          f (l.get ⟨j, hj⟩) ≤ f (l.get ⟨i, hi⟩)) ∧
        (∀ (j : Nat) (hj : j < l.length), j < i →
          f (l.get ⟨j, hj⟩) < f (l.get ⟨i, hi⟩)) := by
  intro l
  induction l with
  | nil => intro h; exact absurd rfl h
  | cons a l ih =>
    intro _
    by_cases hl : l = []
    · subst hl
      refine ⟨0, by simp, rfl, ?_, ?_⟩
      · intro j hj
        have hj0 : j = 0 := by simpa using hj
        subst hj0; simp
      · intro j hj hji; omega
    · obtain ⟨i, hi, hfm, hmax, hstrict⟩ := ih hl
      by_cases hcmp : f (l.get ⟨i, hi⟩) ≤ f a
      · refine ⟨0, by simp, ?_, ?_, ?_⟩
        · simp only [firstMax, hfm]; rw [if_pos hcmp]; rfl
        · intro j hj
          cases j with
          | zero => simp
          | succ k =>
            have hk : k < l.length := by simpa using hj
            have hgk : (a :: l).get ⟨k + 1, hj⟩ = l.get ⟨k, hk⟩ := rfl
            have hg0 : (a :: l).get ⟨0, by simp⟩ = a := rfl
            rw [hgk, hg0]
            exact le_trans (hmax k hk) hcmp
        · intro j hj hji; omega
      · have hlt : f a < f (l.get ⟨i, hi⟩) := lt_of_not_le hcmp
        have hi1 : i + 1 < (a :: l).length := by simpa using Nat.succ_lt_succ hi
        have hgi : (a :: l).get ⟨i + 1, hi1⟩ = l.get ⟨i, hi⟩ := rfl
        refine ⟨i + 1, hi1, ?_, ?_, ?_⟩
        · simp only [firstMax, hfm]; rw [if_neg hcmp, hgi]
        · intro j hj
          cases j with
          | zero => rw [hgi]; exact le_of_lt hlt
          | succ k =>
            have hk : k < l.length := by simpa using hj
            have hgk : (a :: l).get ⟨k + 1, hj⟩ = l.get ⟨k, hk⟩ := rfl
            rw [hgk, hgi]
            exact hmax k hk
        · intro j hj hji
          cases j with
          | zero => rw [hgi]; exact hlt
          | succ k =>
            have hk : k < l.length := by simpa using hj
            have hgk : (a :: l).get ⟨k + 1, hj⟩ = l.get ⟨k, hk⟩ := rfl
            rw [hgk, hgi]
            exact hstrict k hk (by omega)

/-! ## Claim theorems -/

/-- C1: for every rule set and context whose evaluation yields a
non-empty list of applicable discounts, `_calculate_discount` selects an
applicable discount at some position `i` of the evaluation-order list
such that every applicable amount is `≤` the selected amount and every
applicable discount before position `i` has a strictly smaller amount —
i.e. the maximum is selected and ties on the maximum go to the executor
earliest in evaluation order, deterministically. -/
theorem calculate_discount_first_maximum {Ctx : Type}
    (rules : List (DiscountRuleExecutor Ctx)) (ctx : Ctx)
    (hne : applicable_discounts rules ctx ≠ []) :
    ∃ (i : Nat) (hi : i < (applicable_discounts rules ctx).length),
      calculate_discount rules ctx
        = some ((applicable_discounts rules ctx).get ⟨i, hi⟩) ∧
      (∀ (j : Nat) (hj : j < (applicable_discounts rules ctx).length),
        ((applicable_discounts rules ctx).get ⟨j, hj⟩).discount
          ≤ ((applicable_discounts rules ctx).get ⟨i, hi⟩).discount) ∧
      (∀ (j : Nat) (hj : j < (applicable_discounts rules ctx).length),
        j < i →
        ((applicable_discounts rules ctx).get ⟨j, hj⟩).discount
          < ((applicable_discounts rules ctx).get ⟨i, hi⟩).discount) := by
  have hlen : ¬((applicable_discounts rules ctx).length = 0) := by
    simpa [List.length_eq_zero] using hne
  obtain ⟨i, hi, hfm, hmax, hstrict⟩ :=
    firstMax_spec (fun x : ApplicableDiscount => x.discount)
      (applicable_discounts rules ctx) hne
  refine ⟨i, hi, ?_, hmax, hstrict⟩
  show (if (applicable_discounts rules ctx).length = 0 then none
      else get_largest_discount (applicable_discounts rules ctx)
        (fun x => x.discount))
    = some ((applicable_discounts rules ctx).get ⟨i, hi⟩)
  rw [if_neg hlen, get_largest_discount, head?_sortDesc]
  exact hfm

/-- Two executors used to witness C1, tying on the maximum amount. -/
def c1_exec_a : DiscountRuleExecutor Unit := ⟨1, ⟨true, fun _ => 5⟩, none, none⟩

/-- Second C1 witness executor (same amount, later in order). -/
def c1_exec_b : DiscountRuleExecutor Unit := ⟨2, ⟨true, fun _ => 5⟩, none, none⟩

/-- Witness for C1: a concrete two-executor tie. -/
theorem calculate_discount_first_maximum_witness :
    applicable_discounts [c1_exec_a, c1_exec_b] () ≠ [] ∧
    (∃ (i : Nat)
        (hi : i < (applicable_discounts [c1_exec_a, c1_exec_b] ()).length),
      calculate_discount [c1_exec_a, c1_exec_b] ()
        = some ((applicable_discounts [c1_exec_a, c1_exec_b] ()).get ⟨i, hi⟩) ∧
      (∀ (j : Nat)
          (hj : j < (applicable_discounts [c1_exec_a, c1_exec_b] ()).length),
        ((applicable_discounts [c1_exec_a, c1_exec_b] ()).get ⟨j, hj⟩).discount
          ≤ ((applicable_discounts [c1_exec_a, c1_exec_b] ()).get
              ⟨i, hi⟩).discount) ∧
      (∀ (j : Nat)
          (hj : j < (applicable_discounts [c1_exec_a, c1_exec_b] ()).length),
        j < i →
        ((applicable_discounts [c1_exec_a, c1_exec_b] ()).get ⟨j, hj⟩).discount
          < ((applicable_discounts [c1_exec_a, c1_exec_b] ()).get
              ⟨i, hi⟩).discount)) :=
  ⟨by decide, calculate_discount_first_maximum [c1_exec_a, c1_exec_b] ()
    (by decide)⟩

/-- The eligibility spec declared by the first C2 definition. -/
def c2_elig_spec : Subrule := ⟨"rule_transaction_attributes", [("package_size", "S")]⟩

/-- The correction spec declared by the first C2 definition. -/
def c2_corr_spec : Subrule := ⟨"basic_monthly_discount_size_limiter", [("size", "25")]⟩

/-- First C2 definition: declares eligibility and correction rules. -/
def c2_def1 : DiscountRule :=
  ⟨1, ⟨"rule_discount_size_full_price", []⟩, some [c2_elig_spec], some c2_corr_spec⟩

/-- Second C2 definition: declares neither eligibility nor correction
rules. -/
def c2_def2 : DiscountRule :=
  ⟨2, ⟨"rule_discount_size_full_price", []⟩, none, none⟩

/-- C2 (code bug): `_get_rules` initialises `init_eligibility_rules` and
`init_correction_rule` once before the loop, so a definition that
declares no eligibility (or correction) rules inherits the bindings of
the closest earlier definition that declared them: the executor built
for `c2_def2` is bound to `c2_def1`'s eligibility and correction specs
instead of none. -/
theorem get_rules_leaks_previous_definitions_bindings :
    get_rules [c2_def1, c2_def2]
      = [⟨1, ⟨"rule_discount_size_full_price", []⟩, some [c2_elig_spec],
          some c2_corr_spec⟩,
         ⟨2, ⟨"rule_discount_size_full_price", []⟩, some [c2_elig_spec],
          some c2_corr_spec⟩] := by
  rfl

/-- A size rule computing a raw discount of exactly zero. -/
def c3_size : SizeObj Unit := ⟨true, fun _ => 0⟩

/-- A correction rule returning a positive amount for any raw
discount. -/
def c3_corr : CorrObj Unit := ⟨true, true, fun _ _ => some 7⟩

/-- An executor binding the zero size rule and the positive correction
rule, always eligible. -/
def c3_exec : DiscountRuleExecutor Unit := ⟨1, c3_size, none, some c3_corr⟩

/-- C3 counterexample: an eligible executor whose size rule computes a
raw discount of exactly zero but whose bound correction rule maps it to
`7`, so `execute_rule` returns `some 7`, not `None` — refuting the
claim that a zero raw discount always yields no discount when a
correction rule is bound. -/
theorem c3_zero_raw_discount_counterexample :
    is_eligible c3_exec.eligibility_rules () = true ∧
    c3_exec.size_rule.calculate_discount () = 0 ∧
    c3_exec.size_correction_rule.isSome = true ∧
    (c3_exec.execute_rule ()).result = some 7 := by
  decide

/-- C3 amended: for every eligible context in which the size rule
computes a raw discount of exactly zero, `execute_rule` returns no
discount when no correction rule is bound; when a correction rule is
bound it is invoked with the zero raw discount and its output governs
the result (`None`, zero or negative corrected values yield no
discount, a positive corrected value is returned). -/
theorem execute_rule_zero_raw_discount {Ctx : Type}
    (e : DiscountRuleExecutor Ctx) (ctx : Ctx)
    (helig : is_eligible e.eligibility_rules ctx = true)
    (hzero : e.size_rule.calculate_discount ctx = 0) :
    (e.execute_rule ctx).correction_invoked = e.size_correction_rule.isSome ∧
    (e.execute_rule ctx).result
      = match e.size_correction_rule with
        | none => none
        | some c =>
          match c.correct ctx 0 with
          | none => none
          | some v => if v < 0 then none else if v = 0 then none else some v := by
  rw [DiscountRuleExecutor.execute_rule, helig]
  simp only [Bool.not_true, Bool.false_eq_true, if_false, hzero]
  rw [if_neg (by norm_num)]
  cases hc : e.size_correction_rule with
  | none => simp
  | some c =>
    cases hv : c.correct ctx 0 with
    | none => simp [hv]
    | some v => by_cases hvn : v < 0 <;> simp [hv, hvn]

/-- Witness for the amended C3 theorem at the counterexample executor:
the correction rule is invoked on the zero raw discount and its
(positive) output is returned. -/
theorem execute_rule_zero_raw_discount_witness :
    (c3_exec.execute_rule ()).correction_invoked
        = c3_exec.size_correction_rule.isSome ∧
    (c3_exec.execute_rule ()).result
      = match c3_exec.size_correction_rule with
        | none => none
        | some c =>
          match c.correct () 0 with
          | none => none
          | some v => if v < 0 then none else if v = 0 then none else some v :=
  execute_rule_zero_raw_discount c3_exec () rfl rfl

/-- C9: for every executor with bound eligibility rules, if one of them
evaluates to `false` on a context then `execute_rule` returns no
discount and neither the size rule nor the correction rule is
invoked. -/
theorem execute_rule_short_circuit {Ctx : Type}
    (e : DiscountRuleExecutor Ctx) (ctx : Ctx) (rs : List (EligObj Ctx))
    (r : EligObj Ctx) (hrs : e.eligibility_rules = some rs) (hr : r ∈ rs)
    (hf : r.eligible ctx = false) :
    e.execute_rule ctx = ⟨none, false, false⟩ := by
  have hall : is_eligible e.eligibility_rules ctx = false := by
    rw [hrs, is_eligible]
    rw [List.all_eq_false]
    exact ⟨r, hr, by simp [hf]⟩
  rw [DiscountRuleExecutor.execute_rule, hall]
  simp

/-- An eligibility rule that always reports ineligible. -/
def c9_elig : EligObj Unit := ⟨true, fun _ => false⟩

/-- A size rule used to witness C9. -/
def c9_size : SizeObj Unit := ⟨true, fun _ => 3⟩

/-- An executor whose only eligibility rule reports ineligible. -/
def c9_exec : DiscountRuleExecutor Unit :=
  ⟨4, c9_size, some [c9_elig], some ⟨true, true, fun _ d => some (d + 1)⟩⟩

/-- Witness for C9: the ineligible executor returns no discount and
invokes neither the size rule nor the correction rule. -/
theorem execute_rule_short_circuit_witness :
    c9_exec.execute_rule () = ⟨none, false, false⟩ :=
  execute_rule_short_circuit c9_exec () [c9_elig] c9_elig rfl
    (List.Mem.head _) rfl

/-- C10: constructing an executor with an empty (non-`None`) sequence
of eligibility rules skips the eligibility capability checks (the
python truthiness test skips the loop) and succeeds whenever the other
subrules pass their checks, and the resulting executor evaluates every
context exactly like one constructed with no eligibility rules
declared: eligibility is vacuously true and the size rule is
invoked. -/
theorem executor_empty_eligibility_like_none {Ctx : Type}
    (discount_id : Int) (size_rule : SizeObj Ctx)
    (corr : Option (CorrObj Ctx))
    (hsz : size_rule.has_calculate_discount = true)
    (hcorr : ∀ c, corr = some c →
      c.has_correct = true ∧ c.correct_has_discount_arg = true) :
    elig_check_fails (some ([] : List (EligObj Ctx))) = false ∧
    DiscountRuleExecutor.init discount_id size_rule (some []) corr
      = Except.ok ⟨discount_id, size_rule, some [], corr⟩ ∧
    ∀ ctx : Ctx,
      is_eligible (some ([] : List (EligObj Ctx))) ctx = true ∧
      DiscountRuleExecutor.execute_rule
          ⟨discount_id, size_rule, some [], corr⟩ ctx
        = DiscountRuleExecutor.execute_rule
            ⟨discount_id, size_rule, none, corr⟩ ctx ∧
      (DiscountRuleExecutor.execute_rule
          ⟨discount_id, size_rule, some [], corr⟩ ctx).size_invoked = true := by
  refine ⟨rfl, ?_, ?_⟩
  · cases corr with
    | none => simp [DiscountRuleExecutor.init.eq_def, elig_check_fails, hsz]
    | some c =>
      obtain ⟨h1, h2⟩ := hcorr c rfl
      simp [DiscountRuleExecutor.init.eq_def, elig_check_fails, hsz, h1, h2]
  · intro ctx
    refine ⟨rfl, ?_, ?_⟩
    · rfl
    · rw [DiscountRuleExecutor.execute_rule]
      simp only [is_eligible, List.all_nil, Bool.not_true, Bool.false_eq_true,
        if_false]
      by_cases hs : size_rule.calculate_discount ctx < 0
      · simp [hs]
      · cases hc : corr with
        | none => simp [hs]
        | some c =>
          cases hv : c.correct ctx (size_rule.calculate_discount ctx) with
          | none => simp [hs, hv]
          | some v => by_cases hvn : v < 0 <;> simp [hs, hv, hvn]

/-- A size rule used to witness C10. -/
def c10_size : SizeObj Unit := ⟨true, fun _ => 3⟩

/-- Witness for C10 at a concrete size rule and no correction rule. -/
theorem executor_empty_eligibility_like_none_witness :
    elig_check_fails (some ([] : List (EligObj Unit))) = false ∧
    DiscountRuleExecutor.init 1 c10_size (some []) none
      = Except.ok ⟨1, c10_size, some [], none⟩ ∧
    ∀ ctx : Unit,
      is_eligible (some ([] : List (EligObj Unit))) ctx = true ∧
      DiscountRuleExecutor.execute_rule ⟨1, c10_size, some [], none⟩ ctx
        = DiscountRuleExecutor.execute_rule ⟨1, c10_size, none, none⟩ ctx ∧
      (DiscountRuleExecutor.execute_rule
          ⟨1, c10_size, some [], none⟩ ctx).size_invoked = true :=
  executor_empty_eligibility_like_none 1 c10_size none rfl
    (fun c hc => by cases hc)

/-- C4: when the lease renewal (`lock.reacquire`) after persistence
fails with `LockNotOwnedException`, the unit of work is aborted (never
committed) and the failure propagates out of `process_transaction`
(the error-path release, itself succeeding or reporting not-owned, does
not mask it). -/
theorem reacquire_not_owned_aborts_and_propagates (price : ℚ)
    (b : CollabOutcomes) (d : Option ApplicableDiscount)
    (hc : b.calc_discount = Except.ok d) (hs : b.save = Except.ok ())
    (hr : b.reacquire = Except.error Exc.lockNotOwned)
    (hrel : b.release = Except.ok () ∨
      b.release = Except.error Exc.lockNotOwned) :
    (process_transaction_locked price b).2
        = Except.error Exc.lockNotOwned ∧
    Ev.uowAbort ∈ (process_transaction_locked price b).1 ∧
    Ev.uowCommit ∉ (process_transaction_locked price b).1 := by
  rcases hrel with h | h <;>
    simp [process_transaction_locked, with_uow, uow_body, hc, hs, hr, h]

/-- Collaborator outcomes witnessing C4: reacquire (and the subsequent
release) report the lock is not owned. -/
def c4_outcomes : CollabOutcomes :=
  ⟨Except.ok none, Except.ok (), Except.error Exc.lockNotOwned,
    Except.error Exc.lockNotOwned⟩

/-- Witness for C4 at concrete collaborator outcomes. -/
theorem reacquire_not_owned_aborts_and_propagates_witness :
    c4_outcomes.calc_discount = Except.ok none ∧
    c4_outcomes.reacquire = Except.error Exc.lockNotOwned ∧
    ((process_transaction_locked 3 c4_outcomes).2
        = Except.error Exc.lockNotOwned ∧
      Ev.uowAbort ∈ (process_transaction_locked 3 c4_outcomes).1 ∧
      Ev.uowCommit ∉ (process_transaction_locked 3 c4_outcomes).1) :=
  ⟨rfl, rfl,
    reacquire_not_owned_aborts_and_propagates 3 c4_outcomes none rfl rfl rfl
      (Or.inr rfl)⟩

/-- C5: when the final `lock.release` fails with
`LockNotOwnedException`, then (success path) with every earlier call
succeeding the computed response is still returned, and (error path)
whenever the unit-of-work block failed with some exception, that
original exception is what propagates — the not-owned release error is
swallowed in both branches. -/
theorem release_not_owned_swallowed (price : ℚ) (b : CollabOutcomes)
    (hrel : b.release = Except.error Exc.lockNotOwned) :
    (∀ d : Option ApplicableDiscount,
      b.calc_discount = Except.ok d → b.save = Except.ok () →
      b.reacquire = Except.ok () →
      (process_transaction_locked price b).2
        = Except.ok (get_response price (d.map (fun x => x.discount)))) ∧
    (∀ e : Exc, (with_uow b).2 = Except.error e →
      (process_transaction_locked price b).2 = Except.error e) := by
  constructor
  · intro d hc hs hr
    simp [process_transaction_locked, with_uow, uow_body, hc, hs, hr, hrel]
  · intro e he
    simp [process_transaction_locked, he, hrel]

/-- Collaborator outcomes witnessing C5: everything succeeds except the
final release, which reports the lock is not owned. -/
def c5_outcomes : CollabOutcomes :=
  ⟨Except.ok (some ⟨2, 1⟩), Except.ok (), Except.ok (),
    Except.error Exc.lockNotOwned⟩

/-- Witness for C5 on the success path at concrete collaborator
outcomes. -/
theorem release_not_owned_swallowed_witness :
    c5_outcomes.release = Except.error Exc.lockNotOwned ∧
    (process_transaction_locked 3 c5_outcomes).2
      = Except.ok (get_response 3
          ((some (⟨2, 1⟩ : ApplicableDiscount)).map (fun x => x.discount))) :=
  ⟨rfl, (release_not_owned_swallowed 3 c5_outcomes rfl).1 (some ⟨2, 1⟩)
    rfl rfl rfl⟩

/-- C6 (code bug): the decimal-places formatter inspects
`digits[-dec_places:]`, the last two coefficient digits, instead of the
digits beyond the second fractional place.  Consequently `123.450`
(only a trailing zero beyond the second place, so the spec and the
function's own docstring accept it as `123.45`) is rejected with
`ValueError`, while `0.00100` (a nonzero digit beyond the second place,
so the spec rejects it) is accepted and silently truncated to `0.00`. -/
theorem decimal_places_formatter_wrong_digits_window :
    (spec_trailing_zeros_only 2 ⟨false, 123450, 3⟩ ∧
      shipping_plan_validate_price ⟨false, 123450, 3⟩
        = Except.error "Value must have exactly dec_places decimal places") ∧
    (¬ spec_trailing_zeros_only 2 ⟨false, 100, 5⟩ ∧
      shipping_plan_validate_price ⟨false, 100, 5⟩
        = Except.ok ⟨false, 0, 2⟩) :=
  ⟨⟨by decide, rfl⟩, by decide, rfl⟩

/-- C7: for every cap `size > 0`, non-negative raw discount `d` and
repository state, the monthly limiter returns
`min d (max 0 (size − accumulated))` where `accumulated` is the
discount sum over the transaction date's calendar month (first through
last day, both inclusive). -/
theorem monthly_limiter_min_formula (r : BasicMonthlyDiscountSizeLimiter)
    (d : ℚ) (t : UTrans) (ts : List PTrans) (hcap : 0 < r.size)
    (hd : 0 ≤ d) :
    r.correct d t ts
      = min d (max 0 (r.size - get_discount_sum ts
          (some ⟨t.date.year, t.date.month, 1⟩)
          (some ⟨t.date.year, t.date.month,
            days_in_month t.date.year t.date.month⟩) none)) := by
  simp only [BasicMonthlyDiscountSizeLimiter.correct,
    get_calendar_month_range_dates]
  set acc := get_discount_sum ts (some ⟨t.date.year, t.date.month, 1⟩)
    (some ⟨t.date.year, t.date.month,
      days_in_month t.date.year t.date.month⟩) none with hacc
  split_ifs with h
  · have h1 : d ≤ r.size - acc := by linarith
    have h2 : d ≤ max 0 (r.size - acc) := le_trans h1 (le_max_right _ _)
    exact (min_eq_left h2).symm
  · have h1 : r.size - acc < d := by linarith
    have h2 : max 0 (r.size - acc) ≤ d := by
      rcases le_total (r.size - acc) 0 with h3 | h3
      · rw [max_eq_left h3]; linarith
      · rw [max_eq_right h3]; linarith
    rw [min_eq_right h2, max_comm]

/-- A concrete transaction used to witness C7. -/
def c7_t : UTrans := ⟨⟨2018, 9, 5⟩, "S", "A"⟩

/-- Witness for C7 at cap 25, raw discount 2, empty repository. -/
theorem monthly_limiter_min_formula_witness :
    (0 : ℚ) < 25 ∧ (0 : ℚ) ≤ 2 ∧
    BasicMonthlyDiscountSizeLimiter.correct ⟨25⟩ 2 c7_t []
      = min 2 (max 0 (25 - get_discount_sum []
          (some ⟨c7_t.date.year, c7_t.date.month, 1⟩)
          (some ⟨c7_t.date.year, c7_t.date.month,
            days_in_month c7_t.date.year c7_t.date.month⟩) none)) :=
  ⟨by norm_num, by norm_num,
    monthly_limiter_min_formula ⟨25⟩ 2 c7_t [] (by norm_num) (by norm_num)⟩

/-- An every-nth rule with `nth = 1` and a carrier filter, used to
refute C8 as stated. -/
def c8_rule : RuleEveryNthTransaction := ⟨1, ⟨none, none, some "A"⟩⟩

/-- A transaction whose carrier does not match `c8_rule`'s filter. -/
def c8_t : UTrans := ⟨⟨2018, 9, 1⟩, "M", "B"⟩

/-- C8 counterexample: with an empty repository,
`(persisted_count_matching_filter + 1) mod nth = 0` holds (any count
mod 1 is 0), yet the rule reports the transaction ineligible because
the transaction itself does not match the configured filter — refuting
the claimed "eligible iff" for transactions not matching the filter. -/
theorem every_nth_filter_mismatch_counterexample :
    (get_transaction_count [] none none (some c8_rule.transaction_attr) + 1)
        % c8_rule.nth = 0 ∧
    c8_rule.eligible c8_t [] = false := by
  decide

/-- The empty attribute dictionary matches every transaction. -/
theorem attributes_equal_utrans_of_isEmpty (t : UTrans)
    (f : TransAttrFilter) (h : f.isEmpty = true) :
    attributes_equal_utrans t f = true := by
  rcases f with ⟨fd, fp, fc⟩
  simp only [TransAttrFilter.isEmpty, Bool.and_eq_true, decide_eq_true_eq]
    at h
  obtain ⟨⟨h1, h2⟩, h3⟩ := h
  subst h1; subst h2; subst h3
  rfl

/-- C8 amended: for every every-nth rule (with `nth ≥ 1`, as enforced
at construction), transaction and repository state, the rule reports
the transaction eligible iff the transaction matches the configured
attribute filter (vacuously when the filter is empty) and
`(persisted_count_matching_filter + 1) mod nth = 0`. -/
theorem every_nth_eligible_iff (r : RuleEveryNthTransaction) (t : UTrans)
    (ts : List PTrans) (hn : 1 ≤ r.nth) :
    r.eligible t ts
      = (attributes_equal_utrans t r.transaction_attr &&
          ((get_transaction_count ts none none (some r.transaction_attr) + 1)
            % r.nth == 0)) := by
  rw [RuleEveryNthTransaction.eligible]
  by_cases hem : r.transaction_attr.isEmpty = true
  · rw [attributes_equal_utrans_of_isEmpty t _ hem]
    simp [hem]
  · have hem' : r.transaction_attr.isEmpty = false :=
      Bool.eq_false_iff.mpr hem
    by_cases hmatch : attributes_equal_utrans t r.transaction_attr = true
    · simp [hem', hmatch]
    · have hmatch' : attributes_equal_utrans t r.transaction_attr = false :=
        Bool.eq_false_iff.mpr hmatch
      simp [hem', hmatch']

/-- An every-nth rule with an empty filter, used to witness the amended
C8. -/
def c8_rule2 : RuleEveryNthTransaction := ⟨2, ⟨none, none, none⟩⟩

/-- A transaction used to witness the amended C8. -/
def c8_t2 : UTrans := ⟨⟨2018, 9, 1⟩, "M", "A"⟩

/-- Witness for the amended C8 at `nth = 2` and an empty repository. -/
theorem every_nth_eligible_iff_witness :
    1 ≤ c8_rule2.nth ∧
    c8_rule2.eligible c8_t2 []
      = (attributes_equal_utrans c8_t2 c8_rule2.transaction_attr &&
          ((get_transaction_count [] none none
              (some c8_rule2.transaction_attr) + 1) % c8_rule2.nth == 0)) :=
  ⟨by decide, every_nth_eligible_iff c8_rule2 c8_t2 [] (by decide)⟩

end Shipping
